import Mathlib

/-!
Verification of the cmdparser_c command-line option parsing library.

The repository ships a demo program (`src/main.c`) that builds an option
table and calls `parse_options` / `print_help` from `lib/cmdparser.h`.
The parser itself is modelled from the specification (section 4.2), since
only its caller is present in the sources; the demo's option table and the
way `main` consumes the parse result are embedded from `src/main.c`.

The C parser communicates results through caller-owned output slots
(`int *` for flags, `const char **` for value options) and returns either
the index of the first positional argument or a negative error code.  The
embedding replaces the pointers by a list of slot entries parallel to the
option table, and the negative error code by an `Except` value carrying
the error taxonomy of section 7.
-/

/-- Modelled from the spec: `struct CommandOption` of `lib/cmdparser.h`
(missing from the sources; its initializers appear in `src/main.c`):
description text, optional long name, optional short name, whether the
option takes an argument, and an optional default value.  The C
`output_slot` pointer is represented positionally: descriptor `k` writes
slot `k`. -/
structure CommandOption where
  description : String
  long_name : Option String
  short_name : Option Char
  takes_argument : Bool
  default_value : Option String
deriving DecidableEq, Repr

/-- The value stored in one caller-owned output slot: an `int` flag slot
or a `const char *` value slot (`none` models a NULL string pointer). -/
inductive SlotVal where
  | flag (b : Bool)
  | str (s : Option String)
deriving DecidableEq, Repr

/-- One output slot together with the bookkeeping bit recording whether the slot
was written during the scan (in C this is implicit: the parser only assigns
through the pointer when the option is encountered). -/
structure SlotEntry where
  val : SlotVal
  written : Bool
deriving DecidableEq, Repr

/-- Modelled from the spec: the error taxonomy of section 7 for the
missing `parse_options` (in C a negative return value).  Each error
carries the offending token or descriptor. -/
inductive ParseError where
  | UnknownOption (tok : String)
  | MissingArgument (d : CommandOption)
  | UnexpectedValue (d : CommandOption)
deriving DecidableEq, Repr

/-- Write value `v` into slot `k`, marking it written. -/
def setSlot (st : List SlotEntry) (k : Nat) (v : SlotVal) : List SlotEntry :=
  st.set k ⟨v, true⟩

/-- Find the first descriptor satisfying `p`, together with its index. -/
def findDesc (p : CommandOption → Bool) : List CommandOption → Option (Nat × CommandOption)
  | [] => none
  | d :: ds =>
    if p d then some (0, d)
    else
      match findDesc p ds with
      | none => none
      | some (k, d') => some (k + 1, d')

/-- Look a descriptor up by its long name. -/
def findLong (table : List CommandOption) (name : String) : Option (Nat × CommandOption) :=
  findDesc (fun d => decide (d.long_name = some name)) table

/-- Look a descriptor up by its short name. -/
def findShort (table : List CommandOption) (c : Char) : Option (Nat × CommandOption) :=
  findDesc (fun d => decide (d.short_name = some c)) table

/-- Split a long-option body on the first `=`: `some` holds the attached
value when an `=` is present. -/
def splitEq : List Char → List Char × Option (List Char)
  | [] => ([], none)
  | c :: cs =>
    if c = '=' then ([], some cs)
    else
      let r := splitEq cs
      (c :: r.1, r.2)

/-- Outcome of handling one option token: `stop extra` means the scan
ends and the first positional index is the current index plus `extra`
(`extra = 1` exactly for the `--` terminator, which is itself consumed);
`step withNext st'` means scanning continues with updated slots, having
also consumed the next token when `withNext` is true. -/
inductive HandlerOut where
  | stop (extra : Nat)
  | step (withNext : Bool) (st : List SlotEntry)
deriving DecidableEq, Repr

/-- Modelled from the spec: the long-option branch of the missing
`parse_options` (section 4.2, token beginning with `--`, length > 2).
`body` is the token text after the `--` prefix, `t` the whole token for
error reporting, `next` the lookahead token. -/
def handleLong (table : List CommandOption) (t : String) (body : List Char)
    (next : Option String) (st : List SlotEntry) : Except ParseError HandlerOut :=
  let r := splitEq body
  match findLong table (String.mk r.1) with
  | none => .error (.UnknownOption t)
  | some (k, d) =>
    if d.takes_argument then
      match r.2 with
      | some v => .ok (.step false (setSlot st k (.str (some (String.mk v)))))
      | none =>
        match next with
        | none => .error (.MissingArgument d)
        | some v => .ok (.step true (setSlot st k (.str (some v))))
    else
      match r.2 with
      | some _ => .error (.UnexpectedValue d)
      | none => .ok (.step false (setSlot st k (.flag true)))

/-- Result of scanning a combined short-option cluster: an error, a fully
consumed cluster (`done`), or a value-taking option found with no
characters after it, whose value must be the next whole token
(`needsValue`). -/
inductive ClusterOut where
  | err (e : ParseError)
  | done (st : List SlotEntry)
  | needsValue (k : Nat) (d : CommandOption) (st : List SlotEntry)
deriving DecidableEq, Repr

/-- Modelled from the spec: the short-cluster branch of the missing
`parse_options` (section 4.2, token beginning with a single `-`).  Flags
set their slot and scanning continues inside the token; a value-taking
option consumes the remaining characters as its value when any follow,
ending the cluster, and otherwise requests the next token. -/
def scanCluster (table : List CommandOption) : List Char → List SlotEntry → ClusterOut
  | [], st => .done st
  | c :: cs, st =>
    match findShort table c with
    | none => .err (.UnknownOption (String.mk [c]))
    | some (k, d) =>
      if d.takes_argument then
        match cs with
        | [] => .needsValue k d st
        | _ :: _ => .done (setSlot st k (.str (some (String.mk cs))))
      else scanCluster table cs (setSlot st k (.flag true))

/-- Modelled from the spec: classification and handling of one token of
the missing `parse_options` (section 4.2 step 2).  A token that does not
begin with `-`, or is `-` alone, is the positional boundary; `--` alone
is the consumed terminator; otherwise the long or short branch runs. -/
def handleToken (table : List CommandOption) (t : String) (next : Option String)
    (st : List SlotEntry) : Except ParseError HandlerOut :=
  match t.data with
  | '-' :: '-' :: body =>
    match body with
    | [] => .ok (.stop 1)
    | _ :: _ => handleLong table t body next st
  | '-' :: c :: cs =>
    match scanCluster table (c :: cs) st with
    | .err e => .error e
    | .done st' => .ok (.step false st')
    | .needsValue k d st' =>
      match next with
      | none => .error (.MissingArgument d)
      | some v => .ok (.step true (setSlot st' k (.str (some v))))
  | _ => .ok (.stop 0)

/-- Modelled from the spec: the scan loop of the missing `parse_options`
(section 4.2 steps 1-3): a single left-to-right pass, one token of
lookahead, returning the first positional index or the first error. -/
def parseLoop (table : List CommandOption) : (rest : List String) → (i : Nat) →
    (st : List SlotEntry) → Except ParseError (Nat × List SlotEntry)
  | [], i, st => .ok (i, st)
  | t :: rest', i, st =>
    match handleToken table t rest'.head? st with
    | .error e => .error e
    | .ok (.stop extra) => .ok (i + extra, st)
    | .ok (.step false st') => parseLoop table rest' (i + 1) st'
    | .ok (.step true st') =>
      match rest' with
      -- unreachable: with no lookahead the handler reports MissingArgument
      -- instead of consuming the next token (handleToken_none_not_true)
      | [] => .ok (i + 2, st')
      | _ :: rest'' => parseLoop table rest'' (i + 2) st'

/-- Modelled from the spec: the default pass of the missing
`parse_options` (section 4.2 step 4) on one descriptor/slot pair: a
value-taking descriptor whose slot was never written and whose default is
present gets the default; every other slot is untouched. -/
def applyDefault1 (d : CommandOption) (e : SlotEntry) : SlotEntry :=
  if d.takes_argument && !e.written then
    match d.default_value with
    | some v => ⟨.str (some v), e.written⟩
    | none => e
  else e

/-- The default pass over the whole table (slots are parallel to the
descriptors). -/
def applyDefaults : List CommandOption → List SlotEntry → List SlotEntry
  | [], es => es
  | _ :: _, [] => []
  | d :: ds, e :: es => applyDefault1 d e :: applyDefaults ds es

/-- Modelled from the spec: the missing `parse_options(argc, argv,
options, options_count)`.  `args` is the full argument vector including
the program name at index 0; scanning starts at index 1; on success the
defaults are applied and the first positional index is returned. -/
def parse_options (args : List String) (table : List CommandOption)
    (st : List SlotEntry) : Except ParseError (Nat × List SlotEntry) :=
  match parseLoop table (args.drop 1) 1 st with
  | .error e => .error e
  | .ok (j, st') => .ok (j, applyDefaults table st')

/-! ## The demo program's option table (`src/main.c`) -/

/-- Row 0 of the demo table, the help flag descriptor of `src/main.c`. -/
def helpDesc : CommandOption := ⟨"Help info", some ("help"), some 'h', false, none⟩

/-- Row 1 of the demo table, the verbose flag descriptor of `src/main.c`. -/
def verboseDesc : CommandOption := ⟨"Verbose flag", some ("verbose"), some 'v', false, none⟩

/-- Row 2 of the demo table, the output file descriptor of `src/main.c`, a value option with default text. -/
def outputDesc : CommandOption := ⟨"Output file", some ("output"), some 'o', true, some ("test.c")⟩

/-- Row 3 of the demo table, the input file descriptor of `src/main.c`, a value option with a short name only and no default. -/
def inputDesc : CommandOption := ⟨"Option sort", none, some 'i', true, none⟩

/-- The `options[4]` table of `src/main.c`, in declaration order. -/
def demoTable : List CommandOption := [helpDesc, verboseDesc, outputDesc, inputDesc]

/-- The demo's slot storage as initialized by `main`: `help_flag = 0`,
`verbose_flag = 0`, `output_file = NULL`, `input_file = NULL`. -/
def demoInit : List SlotEntry :=
  [⟨.flag false, false⟩, ⟨.flag false, false⟩, ⟨.str none, false⟩, ⟨.str none, false⟩]

/-- The demo `main` prints its output-file line exactly when `output_file` is
non-NULL after a successful parse (`if (output_file) printf(...)` in
`src/main.c`). -/
def demoPrintsOutputLine (st : List SlotEntry) : Bool :=
  match st.get? 2 with
  | some ⟨.str (some _), _⟩ => true
  | _ => false

/-! ## Basic lemmas about slots and lookup -/

/-- The state `st'` differs from `st` only at slots it has marked written. -/
def Untouched (st st' : List SlotEntry) : Prop :=
  ∀ k e, st'.get? k = some e → e.written = false → st.get? k = some e

theorem untouched_refl (st : List SlotEntry) : Untouched st st :=
  fun _ _ h _ => h

theorem untouched_trans {s1 s2 s3 : List SlotEntry}
    (a : Untouched s1 s2) (b : Untouched s2 s3) : Untouched s1 s3 :=
  fun k e h hw => a k e (b k e h hw) hw

theorem untouched_setSlot (st : List SlotEntry) (k : Nat) (v : SlotVal) :
    Untouched st (setSlot st k v) := by
  intro m e h hw
  by_cases hk : k = m
  · subst hk
    rw [setSlot, List.get?_set_eq] at h
    cases hst : st.get? k with
    | none => rw [hst] at h; simp at h
    | some e0 =>
      rw [hst] at h
      simp only [Option.map_eq_map, Option.map_some'] at h
      cases h
      simp at hw
  · rw [setSlot, List.get?_set_ne _ _ hk] at h
    exact h

theorem setSlot_length (st : List SlotEntry) (k : Nat) (v : SlotVal) :
    (setSlot st k v).length = st.length := by
  simp [setSlot]

theorem findDesc_sound {p : CommandOption → Bool} :
    ∀ {l : List CommandOption} {k : Nat} {d : CommandOption},
      findDesc p l = some (k, d) → l.get? k = some d ∧ p d = true := by
  intro l
  induction l with
  | nil => intro k d h; simp [findDesc] at h
  | cons d0 ds ih =>
    intro k d h
    rw [findDesc] at h
    by_cases hp : p d0
    · rw [if_pos hp] at h
      cases h
      exact ⟨rfl, hp⟩
    · rw [if_neg hp] at h
      cases hfd : findDesc p ds with
      | none => rw [hfd] at h; cases h
      | some kd =>
        obtain ⟨k', d'⟩ := kd
        rw [hfd] at h
        cases h
        obtain ⟨h1, h2⟩ := ih hfd
        exact ⟨h1, h2⟩

theorem findLong_sound {table : List CommandOption} {name : String} {k : Nat}
    {d : CommandOption} (h : findLong table name = some (k, d)) :
    table.get? k = some d ∧ d.long_name = some name := by
  obtain ⟨h1, h2⟩ := findDesc_sound h
  exact ⟨h1, of_decide_eq_true h2⟩

theorem findShort_sound {table : List CommandOption} {c : Char} {k : Nat}
    {d : CommandOption} (h : findShort table c = some (k, d)) :
    table.get? k = some d ∧ d.short_name = some c := by
  obtain ⟨h1, h2⟩ := findDesc_sound h
  exact ⟨h1, of_decide_eq_true h2⟩

/-- Every written slot of a value-taking descriptor holds a non-NULL
string. -/
def ValWritten (table : List CommandOption) (st : List SlotEntry) : Prop :=
  ∀ k d e, table.get? k = some d → d.takes_argument = true →
    st.get? k = some e → e.written = true → ∃ v, e.val = .str (some v)

theorem valWritten_setStr {table : List CommandOption} {st : List SlotEntry}
    (h : ValWritten table st) (k : Nat) (v : String) :
    ValWritten table (setSlot st k (.str (some v))) := by
  intro m d e hm hd hst hw
  by_cases hk : k = m
  · subst hk
    rw [setSlot, List.get?_set_eq] at hst
    cases hs : st.get? k with
    | none => rw [hs] at hst; simp at hst
    | some e0 =>
      rw [hs] at hst
      simp only [Option.map_eq_map, Option.map_some'] at hst
      cases hst
      exact ⟨v, rfl⟩
  · rw [setSlot, List.get?_set_ne _ _ hk] at hst
    exact h m d e hm hd hst hw

theorem valWritten_setFlag {table : List CommandOption} {st : List SlotEntry}
    {k : Nat} {d : CommandOption} (h : ValWritten table st)
    (hk : table.get? k = some d) (hd : d.takes_argument = false) (b : Bool) :
    ValWritten table (setSlot st k (.flag b)) := by
  intro m d' e hm hd' hst hw
  by_cases hkm : k = m
  · subst hkm
    rw [hk] at hm
    cases hm
    rw [hd] at hd'
    cases hd'
  · rw [setSlot, List.get?_set_ne _ _ hkm] at hst
    exact h m d' e hm hd' hst hw

/-! ## Preservation lemmas for the token handlers -/

theorem handleLong_untouched {table : List CommandOption} {t : String} {body : List Char}
    {next : Option String} {st : List SlotEntry} {b : Bool} {st' : List SlotEntry}
    (h : handleLong table t body next st = .ok (.step b st')) : Untouched st st' := by
  rw [handleLong] at h
  split at h
  · cases h
  · split at h
    · split at h
      · cases h
        exact untouched_setSlot _ _ _
      · split at h
        · cases h
        · cases h
          exact untouched_setSlot _ _ _
    · split at h
      · cases h
      · cases h
        exact untouched_setSlot _ _ _

theorem scanCluster_untouched (table : List CommandOption) :
    ∀ (chars : List Char) (st st' : List SlotEntry),
      (scanCluster table chars st = .done st' ∨
        ∃ k d, scanCluster table chars st = .needsValue k d st') → Untouched st st' := by
  intro chars
  induction chars with
  | nil =>
    intro st st' h
    rcases h with h | ⟨k, d, h⟩
    · rw [scanCluster] at h
      cases h
      exact untouched_refl _
    · rw [scanCluster] at h
      cases h
  | cons c cs ih =>
    intro st st' h
    rcases h with h | ⟨k, d, h⟩ <;> rw [scanCluster] at h
    · split at h
      · cases h
      · split at h
        · split at h
          · cases h
          · cases h
            exact untouched_setSlot _ _ _
        · exact untouched_trans (untouched_setSlot _ _ _) (ih _ _ (Or.inl h))
    · split at h
      · cases h
      · split at h
        · split at h
          · cases h
            exact untouched_refl _
          · cases h
        · exact untouched_trans (untouched_setSlot _ _ _) (ih _ _ (Or.inr ⟨k, d, h⟩))

theorem handleToken_untouched {table : List CommandOption} {t : String}
    {next : Option String} {st : List SlotEntry} {b : Bool} {st' : List SlotEntry}
    (h : handleToken table t next st = .ok (.step b st')) : Untouched st st' := by
  rw [handleToken] at h
  split at h
  · split at h
    · cases h
    · exact handleLong_untouched h
  · split at h
    · cases h
    · cases h
      exact scanCluster_untouched _ _ _ _ (Or.inl (by assumption))
    · split at h
      · cases h
      · cases h
        exact untouched_trans
          (scanCluster_untouched _ _ _ _ (Or.inr ⟨_, _, by assumption⟩))
          (untouched_setSlot _ _ _)
  · cases h

theorem scanCluster_needsValue {table : List CommandOption} :
    ∀ {chars : List Char} {st : List SlotEntry} {k : Nat} {d : CommandOption}
      {st' : List SlotEntry}, scanCluster table chars st = .needsValue k d st' →
      table.get? k = some d ∧ d.takes_argument = true := by
  intro chars
  induction chars with
  | nil =>
    intro st k d st' h
    rw [scanCluster] at h
    cases h
  | cons c cs ih =>
    intro st k d st' h
    rw [scanCluster] at h
    split at h
    · cases h
    · rename_i kd k0 d0 hfs
      split at h
      · split at h
        · cases h
          exact ⟨(findShort_sound hfs).1, by assumption⟩
        · cases h
      · exact ih h

theorem handleLong_valWritten {table : List CommandOption} {t : String} {body : List Char}
    {next : Option String} {st : List SlotEntry} {b : Bool} {st' : List SlotEntry}
    (hv : ValWritten table st) (h : handleLong table t body next st = .ok (.step b st')) :
    ValWritten table st' := by
  rw [handleLong] at h
  split at h
  · cases h
  · rename_i kd k0 d0 hfl
    split at h
    · split at h
      · cases h
        exact valWritten_setStr hv _ _
      · split at h
        · cases h
        · cases h
          exact valWritten_setStr hv _ _
    · split at h
      · cases h
      · cases h
        exact valWritten_setFlag hv (findLong_sound hfl).1 (by simp only [Bool.not_eq_true] at *; assumption) _

theorem scanCluster_valWritten (table : List CommandOption) :
    ∀ (chars : List Char) (st st' : List SlotEntry), ValWritten table st →
      (scanCluster table chars st = .done st' ∨
        ∃ k d, scanCluster table chars st = .needsValue k d st') → ValWritten table st' := by
  intro chars
  induction chars with
  | nil =>
    intro st st' hv h
    rcases h with h | ⟨k, d, h⟩ <;> rw [scanCluster] at h
    · cases h; exact hv
    · cases h
  | cons c cs ih =>
    intro st st' hv h
    rcases h with h | ⟨k, d, h⟩ <;> rw [scanCluster] at h
    · split at h
      · cases h
      · rename_i kd k0 d0 hfs
        split at h
        · split at h
          · cases h
          · cases h
            exact valWritten_setStr hv _ _
        · exact ih _ _
            (valWritten_setFlag hv (findShort_sound hfs).1 (by simp only [Bool.not_eq_true] at *; assumption) _)
            (Or.inl h)
    · split at h
      · cases h
      · rename_i kd k0 d0 hfs
        split at h
        · split at h
          · cases h
            exact hv
          · cases h
        · exact ih _ _
            (valWritten_setFlag hv (findShort_sound hfs).1 (by simp only [Bool.not_eq_true] at *; assumption) _)
            (Or.inr ⟨k, d, h⟩)

theorem handleToken_valWritten {table : List CommandOption} {t : String}
    {next : Option String} {st : List SlotEntry} {b : Bool} {st' : List SlotEntry}
    (hv : ValWritten table st) (h : handleToken table t next st = .ok (.step b st')) :
    ValWritten table st' := by
  rw [handleToken] at h
  split at h
  · split at h
    · cases h
    · exact handleLong_valWritten hv h
  · split at h
    · cases h
    · cases h
      exact scanCluster_valWritten _ _ _ _ hv (Or.inl (by assumption))
    · split at h
      · cases h
      · cases h
        exact valWritten_setStr
          (scanCluster_valWritten _ _ _ _ hv (Or.inr ⟨_, _, by assumption⟩)) _ _
  · cases h

/-! ## Loop-level invariants -/

theorem parseLoop_untouched (table : List CommandOption) (rest : List String) (i : Nat)
    (st : List SlotEntry) :
    ∀ j st', parseLoop table rest i st = .ok (j, st') → Untouched st st' := by
  induction rest, i, st using parseLoop.induct table with
  | case1 i st =>
    intro j st' h
    rw [parseLoop] at h
    cases h
    exact untouched_refl _
  | case2 t rest' i st e hh =>
    intro j st' h
    rw [parseLoop, hh] at h
    cases h
  | case3 t rest' i st extra hh =>
    intro j st' h
    rw [parseLoop, hh] at h
    cases h
    exact untouched_refl _
  | case4 t rest' i st st1 hh ih =>
    intro j st' h
    rw [parseLoop, hh] at h
    exact untouched_trans (handleToken_untouched hh) (ih _ _ h)
  | case5 t i st st1 hh =>
    intro j st' h
    rw [parseLoop, hh] at h
    simp at h
    obtain ⟨h1, h2⟩ := h
    subst h2
    exact handleToken_untouched hh
  | case6 t v rest'' i st st1 hh ih =>
    intro j st' h
    rw [parseLoop, hh] at h
    simp at h
    exact untouched_trans (handleToken_untouched hh) (ih _ _ h)

theorem parseLoop_valWritten (table : List CommandOption) (rest : List String) (i : Nat)
    (st : List SlotEntry) :
    ∀ j st', parseLoop table rest i st = .ok (j, st') → ValWritten table st →
      ValWritten table st' := by
  induction rest, i, st using parseLoop.induct table with
  | case1 i st =>
    intro j st' h hv
    rw [parseLoop] at h
    cases h
    exact hv
  | case2 t rest' i st e hh =>
    intro j st' h hv
    rw [parseLoop, hh] at h
    cases h
  | case3 t rest' i st extra hh =>
    intro j st' h hv
    rw [parseLoop, hh] at h
    cases h
    exact hv
  | case4 t rest' i st st1 hh ih =>
    intro j st' h hv
    rw [parseLoop, hh] at h
    exact ih _ _ h (handleToken_valWritten hv hh)
  | case5 t i st st1 hh =>
    intro j st' h hv
    rw [parseLoop, hh] at h
    simp at h
    obtain ⟨h1, h2⟩ := h
    subst h2
    exact handleToken_valWritten hv hh
  | case6 t v rest'' i st st1 hh ih =>
    intro j st' h hv
    rw [parseLoop, hh] at h
    simp at h
    exact ih _ _ h (handleToken_valWritten hv hh)

theorem scanCluster_length (table : List CommandOption) :
    ∀ (chars : List Char) (st st' : List SlotEntry),
      (scanCluster table chars st = .done st' ∨
        ∃ k d, scanCluster table chars st = .needsValue k d st') →
      st'.length = st.length := by
  intro chars
  induction chars with
  | nil =>
    intro st st' h
    rcases h with h | ⟨k, d, h⟩ <;> rw [scanCluster] at h
    · cases h; rfl
    · cases h
  | cons c cs ih =>
    intro st st' h
    rcases h with h | ⟨k, d, h⟩ <;> rw [scanCluster] at h
    · split at h
      · cases h
      · split at h
        · split at h
          · cases h
          · cases h
            exact setSlot_length _ _ _
        · rw [ih _ _ (Or.inl h)]
          exact setSlot_length _ _ _
    · split at h
      · cases h
      · split at h
        · split at h
          · cases h; rfl
          · cases h
        · rw [ih _ _ (Or.inr ⟨k, d, h⟩)]
          exact setSlot_length _ _ _

theorem handleLong_length {table : List CommandOption} {t : String} {body : List Char}
    {next : Option String} {st : List SlotEntry} {b : Bool} {st' : List SlotEntry}
    (h : handleLong table t body next st = .ok (.step b st')) : st'.length = st.length := by
  rw [handleLong] at h
  split at h
  · cases h
  · split at h
    · split at h
      · cases h
        exact setSlot_length _ _ _
      · split at h
        · cases h
        · cases h
          exact setSlot_length _ _ _
    · split at h
      · cases h
      · cases h
        exact setSlot_length _ _ _

theorem handleToken_length {table : List CommandOption} {t : String}
    {next : Option String} {st : List SlotEntry} {b : Bool} {st' : List SlotEntry}
    (h : handleToken table t next st = .ok (.step b st')) : st'.length = st.length := by
  rw [handleToken] at h
  split at h
  · split at h
    · cases h
    · exact handleLong_length h
  · split at h
    · cases h
    · cases h
      exact scanCluster_length _ _ _ _ (Or.inl (by assumption))
    · split at h
      · cases h
      · cases h
        rw [setSlot_length]
        exact scanCluster_length _ _ _ _ (Or.inr ⟨_, _, by assumption⟩)
  · cases h

theorem parseLoop_length (table : List CommandOption) (rest : List String) (i : Nat)
    (st : List SlotEntry) :
    ∀ j st', parseLoop table rest i st = .ok (j, st') → st'.length = st.length := by
  induction rest, i, st using parseLoop.induct table with
  | case1 i st =>
    intro j st' h
    rw [parseLoop] at h
    cases h
    rfl
  | case2 t rest' i st e hh =>
    intro j st' h
    rw [parseLoop, hh] at h
    cases h
  | case3 t rest' i st extra hh =>
    intro j st' h
    rw [parseLoop, hh] at h
    cases h
    rfl
  | case4 t rest' i st st1 hh ih =>
    intro j st' h
    rw [parseLoop, hh] at h
    rw [ih _ _ h]
    exact handleToken_length hh
  | case5 t i st st1 hh =>
    intro j st' h
    rw [parseLoop, hh] at h
    simp at h
    obtain ⟨h1, h2⟩ := h
    subst h2
    exact handleToken_length hh
  | case6 t v rest'' i st st1 hh ih =>
    intro j st' h
    rw [parseLoop, hh] at h
    simp at h
    rw [ih _ _ h]
    exact handleToken_length hh

theorem handleLong_not_stop {table : List CommandOption} {t : String} {body : List Char}
    {next : Option String} {st : List SlotEntry} {extra : Nat}
    (h : handleLong table t body next st = .ok (.stop extra)) : False := by
  rw [handleLong] at h
  split at h
  · cases h
  · split at h
    · split at h
      · cases h
      · split at h
        · cases h
        · cases h
    · split at h
      · cases h
      · cases h

theorem handleToken_stop_le {table : List CommandOption} {t : String}
    {next : Option String} {st : List SlotEntry} {extra : Nat}
    (h : handleToken table t next st = .ok (.stop extra)) : extra ≤ 1 := by
  rw [handleToken] at h
  split at h
  · split at h
    · cases h
      exact le_refl 1
    · exact absurd h handleLong_not_stop
  · split at h
    · cases h
    · cases h
    · split at h
      · cases h
      · cases h
  · cases h
    exact Nat.zero_le 1

theorem handleLong_none_not_true {table : List CommandOption} {t : String}
    {body : List Char} {st st' : List SlotEntry}
    (h : handleLong table t body none st = .ok (.step true st')) : False := by
  rw [handleLong] at h
  split at h
  · cases h
  · split at h
    · split at h
      · cases h
      · cases h
    · split at h
      · cases h
      · cases h

theorem handleToken_none_not_true {table : List CommandOption} {t : String}
    {st st' : List SlotEntry}
    (h : handleToken table t none st = .ok (.step true st')) : False := by
  rw [handleToken] at h
  split at h
  · split at h
    · cases h
    · exact handleLong_none_not_true h
  · split at h
    · cases h
    · cases h
    · cases h
  · cases h

theorem parseLoop_bound (table : List CommandOption) (rest : List String) (i : Nat)
    (st : List SlotEntry) :
    ∀ j st', parseLoop table rest i st = .ok (j, st') → i ≤ j ∧ j ≤ i + rest.length := by
  induction rest, i, st using parseLoop.induct table with
  | case1 i st =>
    intro j st' h
    rw [parseLoop] at h
    cases h
    simp
  | case2 t rest' i st e hh =>
    intro j st' h
    rw [parseLoop, hh] at h
    cases h
  | case3 t rest' i st extra hh =>
    intro j st' h
    rw [parseLoop, hh] at h
    cases h
    have := handleToken_stop_le hh
    simp only [List.length_cons]
    omega
  | case4 t rest' i st st1 hh ih =>
    intro j st' h
    rw [parseLoop, hh] at h
    have := ih _ _ h
    simp only [List.length_cons]
    omega
  | case5 t i st st1 hh =>
    exact absurd hh handleToken_none_not_true
  | case6 t v rest'' i st st1 hh ih =>
    intro j st' h
    rw [parseLoop, hh] at h
    simp at h
    have := ih _ _ h
    simp only [List.length_cons]
    omega

theorem applyDefaults_get?_eq {ds : List CommandOption} :
    ∀ {es : List SlotEntry} {k : Nat} {d : CommandOption} {e : SlotEntry},
      ds.get? k = some d → es.get? k = some e →
      (applyDefaults ds es).get? k = some (applyDefault1 d e) := by
  induction ds with
  | nil =>
    intro es k d e hd he
    simp at hd
  | cons d0 ds' ih =>
    intro es k d e hd he
    cases es with
    | nil => simp at he
    | cons e0 es' =>
      cases k with
      | zero =>
        cases hd
        cases he
        rfl
      | succ m =>
        rw [applyDefaults]
        exact ih hd he

/-- A token at which the scan stops: it does not begin with a dash, or is
the bare dash, the empty token included. -/
def isBoundary (t : String) : Bool :=
  match t.data with
  | '-' :: _ :: _ => false
  | _ => true

theorem handleToken_eq_short {table : List CommandOption} {t : String} {c : Char}
    {cs : List Char} (next : Option String) (st : List SlotEntry)
    (ht : t.data = '-' :: c :: cs) (hc : c ≠ '-') :
    handleToken table t next st =
      match scanCluster table (c :: cs) st with
      | .err e => .error e
      | .done st' => .ok (.step false st')
      | .needsValue k d st' =>
        match next with
        | none => .error (.MissingArgument d)
        | some v => .ok (.step true (setSlot st' k (.str (some v)))) := by
  rw [handleToken.eq_def, ht]
  split
  · rename_i body heq
    injection heq with h1 h2
    injection h2 with h2 h3
    exact absurd h2 hc
  · rename_i c0 cs0 hguard heq
    injection heq with h1 h2
    injection h2 with h2 h3
    subst h2
    subst h3
    rfl
  · rename_i hno1 hno2
    exact absurd rfl (hno2 c cs)

theorem handleToken_eq_long {table : List CommandOption} {t : String} {b : Char}
    {body : List Char} (next : Option String) (st : List SlotEntry)
    (ht : t.data = '-' :: '-' :: b :: body) :
    handleToken table t next st = handleLong table t (b :: body) next st := by
  rw [handleToken.eq_def, ht]
  rfl

theorem handleToken_dashdash {table : List CommandOption} {t : String}
    (next : Option String) (st : List SlotEntry) (ht : t.data = ['-', '-']) :
    handleToken table t next st = .ok (.stop 1) := by
  rw [handleToken.eq_def, ht]
  rfl

theorem handleToken_boundary {table : List CommandOption} {t : String}
    (next : Option String) (st : List SlotEntry) (ht : isBoundary t = true) :
    handleToken table t next st = .ok (.stop 0) := by
  rw [isBoundary] at ht
  rw [handleToken.eq_def]
  cases htd : t.data with
  | nil => rfl
  | cons c cs =>
    rw [htd] at ht
    cases cs with
    | nil =>
      split
      · rename_i body heq
        injection heq with h1 h2
        simp at h2
      · rename_i c0 cs0 hguard heq
        injection heq with h1 h2
        simp at h2
      · rfl
    | cons c2 cs2 =>
      by_cases hc : c = '-'
      · subst hc
        simp at ht
      · split
        · rename_i body heq
          injection heq with h1 h2
          exact absurd h1 hc
        · rename_i c0 cs0 hguard heq
          injection heq with h1 h2
          exact absurd h1 hc
        · rfl

theorem parseLoop_cons_error {table : List CommandOption} {t : String}
    {rest' : List String} {i : Nat} {st : List SlotEntry} {e : ParseError}
    (hh : handleToken table t rest'.head? st = .error e) :
    parseLoop table (t :: rest') i st = .error e := by
  rw [parseLoop, hh]

theorem parseLoop_cons_stop {table : List CommandOption} {t : String}
    {rest' : List String} {i : Nat} {st : List SlotEntry} {extra : Nat}
    (hh : handleToken table t rest'.head? st = .ok (.stop extra)) :
    parseLoop table (t :: rest') i st = .ok (i + extra, st) := by
  rw [parseLoop, hh]

theorem parseLoop_cons_step1 {table : List CommandOption} {t : String}
    {rest' : List String} {i : Nat} {st st1 : List SlotEntry}
    (hh : handleToken table t rest'.head? st = .ok (.step false st1)) :
    parseLoop table (t :: rest') i st = parseLoop table rest' (i + 1) st1 := by
  rw [parseLoop, hh]

theorem parseLoop_cons_step2 {table : List CommandOption} {t v : String}
    {rest'' : List String} {i : Nat} {st st1 : List SlotEntry}
    (hh : handleToken table t (v :: rest'').head? st = .ok (.step true st1)) :
    parseLoop table (t :: v :: rest'') i st = parseLoop table rest'' (i + 2) st1 := by
  rw [parseLoop, hh]

theorem isBoundary_of_shape {t : String}
    (_ : ∀ (b : List Char), t.data = '-' :: '-' :: b → False)
    (h2 : ∀ (c : Char) (cs : List Char), t.data = '-' :: c :: cs → False) :
    isBoundary t = true := by
  rw [isBoundary]
  split
  · rename_i c2 cs2 heq
    exact absurd heq (h2 _ _)
  · rfl

theorem handleToken_stop_shape {table : List CommandOption} {t : String}
    {next : Option String} {st : List SlotEntry} {extra : Nat}
    (h : handleToken table t next st = .ok (.stop extra)) :
    isBoundary t = true ∨ t.data = ['-', '-'] := by
  rw [handleToken.eq_def] at h
  split at h
  · rename_i body heq
    right
    cases body with
    | nil => exact heq
    | cons b bs => exact absurd h handleLong_not_stop
  · split at h
    · cases h
    · cases h
    · split at h
      · cases h
      · cases h
  · rename_i x hno1 hno2
    left
    exact isBoundary_of_shape (fun b hb => hno1 b hb) (fun c cs hc => hno2 c cs hc)

theorem parseLoop_no_stop (table : List CommandOption) (rest : List String) (i : Nat)
    (st : List SlotEntry) :
    ∀ j st', (∀ t ∈ rest, isBoundary t = false ∧ t.data ≠ ['-', '-']) →
      parseLoop table rest i st = .ok (j, st') → j = i + rest.length := by
  induction rest, i, st using parseLoop.induct table with
  | case1 i st =>
    intro j st' hb h
    rw [parseLoop] at h
    cases h
    simp
  | case2 t rest' i st e hh =>
    intro j st' hb h
    rw [parseLoop, hh] at h
    cases h
  | case3 t rest' i st extra hh =>
    intro j st' hb h
    rcases handleToken_stop_shape hh with hcase | hcase
    · have := (hb t (by simp)).1
      rw [this] at hcase
      cases hcase
    · exact absurd hcase (hb t (by simp)).2
  | case4 t rest' i st st1 hh ih =>
    intro j st' hb h
    rw [parseLoop, hh] at h
    have := ih _ _ (fun u hu => hb u (by simp [hu])) h
    simp only [List.length_cons]
    omega
  | case5 t i st st1 hh =>
    intro j st' hb h
    exact absurd hh handleToken_none_not_true
  | case6 t v rest'' i st st1 hh ih =>
    intro j st' hb h
    rw [parseLoop, hh] at h
    simp at h
    have := ih _ _ (fun u hu => hb u (by simp [hu])) h
    simp only [List.length_cons]
    omega

/-! ## Claims -/

/-- Claim C3: whenever the scan reaches the token `--` (exactly, alone) at
index `i`, the parser consumes `--` itself, does not treat it as a
positional, and returns `i + 1` as the first positional index with the
slots untouched, even if the token at `i + 1` looks like an option. -/
theorem claim_C3_terminator :
    (∀ (table : List CommandOption) (rest : List String) (i : Nat) (st : List SlotEntry),
      parseLoop table ("--" :: rest) i st = .ok (i + 1, st)) ∧
    parse_options ["prog", "--", "-v", "x"] demoTable demoInit =
      .ok (2, [⟨.flag false, false⟩, ⟨.flag false, false⟩, ⟨.str (some ("test.c")), false⟩,
        ⟨.str none, false⟩]) := by
  constructor
  · intro table rest i st
    exact parseLoop_cons_stop (handleToken_dashdash _ _ rfl)
  · rfl

/-- Claim C4 fails as stated: in `["prog", "--", "-v"]` no token lacks a
leading dash and none is the bare dash, and no error occurs, yet the
returned positional index is 2, not the vector length 3 — the claim
ignores the `--` terminator. -/
theorem claim_C4_counterexample :
    parse_options ["prog", "--", "-v"] demoTable demoInit =
      .ok (2, [⟨.flag false, false⟩, ⟨.flag false, false⟩, ⟨.str (some ("test.c")), false⟩,
        ⟨.str none, false⟩]) ∧
    (∀ t ∈ ["--", "-v"], isBoundary t = false) ∧
    (2 : Nat) ≠ (["prog", "--", "-v"] : List String).length := by
  refine ⟨rfl, ?_, by simp⟩
  intro t ht
  simp only [List.mem_cons, List.not_mem_nil, or_false] at ht
  rcases ht with h | h <;> subst h <;> rfl

/-- Claim C4 (amended with the `--` terminator, which also stops the
scan): scanning starts at index 1 and stops at the first token that does
not begin with `-` or is the bare `-`, returning that index, or at the
`--` terminator, returning the next index; if no such stopping token
exists and no error occurs the returned index equals the length of
`args`; and a vector whose scan meets a boundary at once returns
positional index 1, writing no slots beyond applying the defaults. -/
theorem claim_C4_boundary :
    (∀ (table : List CommandOption) (t : String) (rest : List String) (i : Nat)
        (st : List SlotEntry), isBoundary t = true →
        parseLoop table (t :: rest) i st = .ok (i, st)) ∧
    (∀ (table : List CommandOption) (rest : List String) (i : Nat) (st : List SlotEntry),
        parseLoop table ("--" :: rest) i st = .ok (i + 1, st)) ∧
    (∀ (table : List CommandOption) (rest : List String) (i : Nat) (st : List SlotEntry)
        (j : Nat) (st' : List SlotEntry),
        (∀ t ∈ rest, isBoundary t = false ∧ t.data ≠ ['-', '-']) →
        parseLoop table rest i st = .ok (j, st') → j = i + rest.length) ∧
    (∀ (table : List CommandOption) (prog t : String) (rest : List String)
        (st : List SlotEntry), isBoundary t = true →
        parse_options (prog :: t :: rest) table st = .ok (1, applyDefaults table st)) ∧
    (∀ (table : List CommandOption) (prog : String) (st : List SlotEntry),
        parse_options [prog] table st = .ok (1, applyDefaults table st)) ∧
    parse_options ["prog", "-v", "-h"] demoTable demoInit =
      .ok (3, [⟨.flag true, true⟩, ⟨.flag true, true⟩, ⟨.str (some ("test.c")), false⟩,
        ⟨.str none, false⟩]) := by
  refine ⟨?_, ?_, ?_, ?_, ?_, rfl⟩
  · intro table t rest i st ht
    have h := @parseLoop_cons_stop table t rest i st 0
      (handleToken_boundary rest.head? st ht)
    simpa using h
  · intro table rest i st
    exact parseLoop_cons_stop (handleToken_dashdash _ _ rfl)
  · intro table rest i st j st' hb h
    exact parseLoop_no_stop table rest i st j st' hb h
  · intro table prog t rest st ht
    rw [parse_options]
    have h := @parseLoop_cons_stop table t rest 1 st 0
      (handleToken_boundary rest.head? st ht)
    simp only [List.drop_succ_cons, List.drop_zero]
    rw [h]
  · intro table prog st
    rw [parse_options]
    simp only [List.drop_succ_cons, List.drop_zero]
    rw [parseLoop]

/-- Witness for the amended claim C4 at a concrete input: `"in.txt"` is a
boundary token, and parsing `["prog", "in.txt"]` with the demo table
returns positional index 1 with only the defaults applied. -/
theorem claim_C4_boundary_witness :
    isBoundary ("in.txt") = true ∧
    parse_options ["prog", "in.txt"] demoTable demoInit =
      .ok (1, applyDefaults demoTable demoInit) :=
  ⟨rfl, claim_C4_boundary.2.2.2.1 demoTable ("prog") ("in.txt") [] demoInit rfl⟩

/-- Claim C1: for every table, a value-taking short option takes the
remaining characters of its token as the value when any follow
immediately, terminating the scan of that token; with none following it
takes the next whole token, advancing the cursor by 2; with no next token
the result is `MissingArgument` referencing that descriptor; and the two
spec scenarios for `-o` hold on the demo table. -/
theorem claim_C1_short_value :
    (∀ (table : List CommandOption) (c : Char) (cs : List Char) (st : List SlotEntry)
        (k : Nat) (d : CommandOption), findShort table c = some (k, d) →
        d.takes_argument = true → cs ≠ [] →
        scanCluster table (c :: cs) st = .done (setSlot st k (.str (some (String.mk cs))))) ∧
    (∀ (table : List CommandOption) (t : String) (c : Char) (cs : List Char)
        (v : String) (rest : List String) (i : Nat) (st : List SlotEntry) (k : Nat)
        (d : CommandOption) (st1 : List SlotEntry),
        t.data = '-' :: c :: cs → c ≠ '-' →
        scanCluster table (c :: cs) st = .needsValue k d st1 →
        parseLoop table (t :: v :: rest) i st =
          parseLoop table rest (i + 2) (setSlot st1 k (.str (some v)))) ∧
    (∀ (table : List CommandOption) (t : String) (c : Char) (cs : List Char)
        (i : Nat) (st : List SlotEntry) (k : Nat) (d : CommandOption)
        (st1 : List SlotEntry),
        t.data = '-' :: c :: cs → c ≠ '-' →
        scanCluster table (c :: cs) st = .needsValue k d st1 →
        parseLoop table [t] i st = .error (.MissingArgument d)) ∧
    parse_options ["prog", "-v", "-o", "out.txt", "a", "b"] demoTable demoInit =
      .ok (4, [⟨.flag false, false⟩, ⟨.flag true, true⟩, ⟨.str (some ("out.txt")), true⟩,
        ⟨.str none, false⟩]) ∧
    parse_options ["prog", "-o"] demoTable demoInit = .error (.MissingArgument outputDesc) := by
  refine ⟨?_, ?_, ?_, rfl, rfl⟩
  · intro table c cs st k d hfs htakes hcs
    rw [scanCluster, hfs]
    simp only [htakes, if_true]
    cases cs with
    | nil => exact absurd rfl hcs
    | cons c2 cs2 => rfl
  · intro table t c cs v rest i st k d st1 ht hc hsc
    have hh := @handleToken_eq_short table t c cs ((v :: rest).head?) st ht hc
    rw [hsc] at hh
    simp only [List.head?_cons] at hh
    exact parseLoop_cons_step2 hh
  · intro table t c cs i st k d st1 ht hc hsc
    have hh := @handleToken_eq_short table t c cs (([] : List String).head?) st ht hc
    rw [hsc] at hh
    simp only [List.head?_nil] at hh
    exact parseLoop_cons_error hh

/-- Witness for claim C1 at concrete inputs: on the demo table `'o'`
matches the value-taking output descriptor, and the cluster `"ox"` takes
`"x"` as the attached value, ending the token. -/
theorem claim_C1_short_value_witness :
    findShort demoTable 'o' = some (2, outputDesc) ∧
    outputDesc.takes_argument = true ∧
    (['x'] : List Char) ≠ [] ∧
    scanCluster demoTable ['o', 'x'] demoInit =
      .done (setSlot demoInit 2 (.str (some (String.mk ['x'])))) :=
  ⟨rfl, rfl, by simp, claim_C1_short_value.1 demoTable 'o' ['x'] demoInit 2 outputDesc
    rfl rfl (by simp)⟩

/-- Claim C2: a long token (length > 2 after the `--` prefix check) is
split on the first `=` into a name and an attached value; when the name
resolves to a value-taking descriptor the slot receives exactly the
attached value, whatever the adjacent tokens are, and the cursor advances
by 1; and the `--output=x.c` spec scenario holds on the demo table. -/
theorem claim_C2_long_attached :
    (∀ (table : List CommandOption) (t : String) (b : Char) (body name : List Char)
        (v : List Char) (rest : List String) (i : Nat) (st : List SlotEntry)
        (k : Nat) (d : CommandOption),
        t.data = '-' :: '-' :: b :: body →
        splitEq (b :: body) = (name, some v) →
        findLong table (String.mk name) = some (k, d) →
        d.takes_argument = true →
        parseLoop table (t :: rest) i st =
          parseLoop table rest (i + 1) (setSlot st k (.str (some (String.mk v))))) ∧
    parse_options ["prog", "--output=x.c", "in1"] demoTable demoInit =
      .ok (2, [⟨.flag false, false⟩, ⟨.flag false, false⟩, ⟨.str (some ("x.c")), true⟩,
        ⟨.str none, false⟩]) := by
  refine ⟨?_, rfl⟩
  intro table t b body name v rest i st k d ht hsp hfl htakes
  have hh := @handleToken_eq_long table t b body rest.head? st ht
  rw [handleLong] at hh
  rw [hsp] at hh
  simp only at hh
  rw [hfl] at hh
  simp only [htakes, if_true] at hh
  exact parseLoop_cons_step1 hh

/-- Witness for claim C2 at a concrete input: `--output=x.c` on the demo
table writes exactly `"x.c"` into the output slot and steps to the next
token. -/
theorem claim_C2_long_attached_witness :
    ("--output=x.c" : String).data =
      '-' :: '-' :: 'o' :: ['u', 't', 'p', 'u', 't', '=', 'x', '.', 'c'] ∧
    splitEq ('o' :: ['u', 't', 'p', 'u', 't', '=', 'x', '.', 'c']) =
      (['o', 'u', 't', 'p', 'u', 't'], some ['x', '.', 'c']) ∧
    findLong demoTable (String.mk ['o', 'u', 't', 'p', 'u', 't']) = some (2, outputDesc) ∧
    outputDesc.takes_argument = true ∧
    parseLoop demoTable ["--output=x.c", "in1"] 1 demoInit =
      parseLoop demoTable ["in1"] 2
        (setSlot demoInit 2 (.str (some (String.mk ['x', '.', 'c'])))) :=
  ⟨rfl, rfl, rfl, rfl, claim_C2_long_attached.1 demoTable ("--output=x.c") 'o'
    ['u', 't', 'p', 'u', 't', '=', 'x', '.', 'c'] ['o', 'u', 't', 'p', 'u', 't']
    ['x', '.', 'c'] ["in1"] 1 demoInit 2 outputDesc rfl rfl rfl rfl⟩

/-- Claim C5: a descriptor with `takes_argument` false has its slot set
true when encountered, consuming exactly one character inside a combined
cluster (scanning continues at the next character), or exactly one token
when the flag stands alone; and the `-hv` spec scenario holds on the demo
table. -/
theorem claim_C5_flags :
    (∀ (table : List CommandOption) (c : Char) (cs : List Char) (st : List SlotEntry)
        (k : Nat) (d : CommandOption), findShort table c = some (k, d) →
        d.takes_argument = false →
        scanCluster table (c :: cs) st = scanCluster table cs (setSlot st k (.flag true))) ∧
    (∀ (table : List CommandOption) (t : String) (c : Char) (rest : List String)
        (i : Nat) (st : List SlotEntry) (k : Nat) (d : CommandOption),
        t.data = ['-', c] → c ≠ '-' → findShort table c = some (k, d) →
        d.takes_argument = false →
        parseLoop table (t :: rest) i st =
          parseLoop table rest (i + 1) (setSlot st k (.flag true))) ∧
    parse_options ["prog", "-hv"] demoTable demoInit =
      .ok (2, [⟨.flag true, true⟩, ⟨.flag true, true⟩, ⟨.str (some ("test.c")), false⟩,
        ⟨.str none, false⟩]) := by
  refine ⟨?_, ?_, rfl⟩
  · intro table c cs st k d hfs hflag
    rw [scanCluster, hfs]
    simp [hflag]
  · intro table t c rest i st k d ht hc hfs hflag
    have hh := @handleToken_eq_short table t c [] rest.head? st ht hc
    rw [scanCluster, hfs] at hh
    simp only [hflag, Bool.false_eq_true, if_false] at hh
    rw [scanCluster] at hh
    exact parseLoop_cons_step1 hh

/-- Witness for claim C5 at a concrete input: `'v'` is a flag on the demo
table and the lone token `-v` sets its slot and consumes one token. -/
theorem claim_C5_flags_witness :
    ("-v" : String).data = ['-', 'v'] ∧ ('v' : Char) ≠ '-' ∧
    findShort demoTable 'v' = some (1, verboseDesc) ∧
    verboseDesc.takes_argument = false ∧
    parseLoop demoTable ["-v", "a"] 1 demoInit =
      parseLoop demoTable ["a"] 2 (setSlot demoInit 1 (.flag true)) :=
  ⟨rfl, by decide, rfl, rfl,
    claim_C5_flags.2.1 demoTable ("-v") 'v' ["a"] 1 demoInit 1 verboseDesc rfl
      (by decide) rfl rfl⟩

/-- Claim C8: a long token whose name matches no descriptor fails with
`UnknownOption` carrying the whole offending token; a cluster character
matching no descriptor fails with `UnknownOption` carrying that
character; and the `--bogus` spec scenario holds on the demo table. -/
theorem claim_C8_unknown :
    (∀ (table : List CommandOption) (t : String) (b : Char) (body name : List Char)
        (att : Option (List Char)) (next : Option String) (st : List SlotEntry),
        t.data = '-' :: '-' :: b :: body →
        splitEq (b :: body) = (name, att) →
        findLong table (String.mk name) = none →
        handleToken table t next st = .error (.UnknownOption t)) ∧
    (∀ (table : List CommandOption) (c : Char) (cs : List Char) (st : List SlotEntry),
        findShort table c = none →
        scanCluster table (c :: cs) st = .err (.UnknownOption (String.mk [c]))) ∧
    parse_options ["prog", "--bogus"] demoTable demoInit =
      .error (.UnknownOption ("--bogus")) := by
  refine ⟨?_, ?_, rfl⟩
  · intro table t b body name att next st ht hsp hfl
    have hh := @handleToken_eq_long table t b body next st ht
    rw [handleLong] at hh
    rw [hsp] at hh
    simp only at hh
    rw [hfl] at hh
    exact hh
  · intro table c cs st hfs
    rw [scanCluster, hfs]

/-- Witness for claim C8 at a concrete input: `--bogus` matches no long
name on the demo table and fails with the whole token. -/
theorem claim_C8_unknown_witness :
    ("--bogus" : String).data = '-' :: '-' :: 'b' :: ['o', 'g', 'u', 's'] ∧
    splitEq ('b' :: ['o', 'g', 'u', 's']) = (['b', 'o', 'g', 'u', 's'], none) ∧
    findLong demoTable (String.mk ['b', 'o', 'g', 'u', 's']) = none ∧
    handleToken demoTable ("--bogus") none demoInit = .error (.UnknownOption ("--bogus")) :=
  ⟨rfl, rfl, rfl, claim_C8_unknown.1 demoTable ("--bogus") 'b' ['o', 'g', 'u', 's']
    ['b', 'o', 'g', 'u', 's'] none none demoInit rfl rfl rfl⟩

/-- Claim C9: a long token `--name=value` whose name matches a flag
descriptor (`takes_argument` false) fails with `UnexpectedValue` for that
descriptor; without an attached value the flag slot is set true and the
cursor advances by 1; concrete demo scenarios for `--help=1` and
`--help`. -/
theorem claim_C9_unexpected_value :
    (∀ (table : List CommandOption) (t : String) (b : Char) (body name v : List Char)
        (next : Option String) (st : List SlotEntry) (k : Nat) (d : CommandOption),
        t.data = '-' :: '-' :: b :: body →
        splitEq (b :: body) = (name, some v) →
        findLong table (String.mk name) = some (k, d) →
        d.takes_argument = false →
        handleToken table t next st = .error (.UnexpectedValue d)) ∧
    (∀ (table : List CommandOption) (t : String) (b : Char) (body name : List Char)
        (rest : List String) (i : Nat) (st : List SlotEntry) (k : Nat)
        (d : CommandOption),
        t.data = '-' :: '-' :: b :: body →
        splitEq (b :: body) = (name, none) →
        findLong table (String.mk name) = some (k, d) →
        d.takes_argument = false →
        parseLoop table (t :: rest) i st =
          parseLoop table rest (i + 1) (setSlot st k (.flag true))) ∧
    parse_options ["prog", "--help=1"] demoTable demoInit =
      .error (.UnexpectedValue helpDesc) ∧
    parse_options ["prog", "--help"] demoTable demoInit =
      .ok (2, [⟨.flag true, true⟩, ⟨.flag false, false⟩, ⟨.str (some ("test.c")), false⟩,
        ⟨.str none, false⟩]) := by
  refine ⟨?_, ?_, rfl, rfl⟩
  · intro table t b body name v next st k d ht hsp hfl hflag
    have hh := @handleToken_eq_long table t b body next st ht
    rw [handleLong] at hh
    rw [hsp] at hh
    simp only at hh
    rw [hfl] at hh
    simp only [hflag, Bool.false_eq_true, if_false] at hh
    exact hh
  · intro table t b body name rest i st k d ht hsp hfl hflag
    have hh := @handleToken_eq_long table t b body rest.head? st ht
    rw [handleLong] at hh
    rw [hsp] at hh
    simp only at hh
    rw [hfl] at hh
    simp only [hflag, Bool.false_eq_true, if_false] at hh
    exact parseLoop_cons_step1 hh

/-- Witness for claim C9 at a concrete input: `--help=1` against the demo
table fails with `UnexpectedValue` for the help descriptor. -/
theorem claim_C9_unexpected_value_witness :
    ("--help=1" : String).data = '-' :: '-' :: 'h' :: ['e', 'l', 'p', '=', '1'] ∧
    splitEq ('h' :: ['e', 'l', 'p', '=', '1']) = (['h', 'e', 'l', 'p'], some ['1']) ∧
    findLong demoTable (String.mk ['h', 'e', 'l', 'p']) = some (0, helpDesc) ∧
    helpDesc.takes_argument = false ∧
    handleToken demoTable ("--help=1") none demoInit = .error (.UnexpectedValue helpDesc) :=
  ⟨rfl, rfl, rfl, rfl, claim_C9_unexpected_value.1 demoTable ("--help=1") 'h'
    ['e', 'l', 'p', '=', '1'] ['h', 'e', 'l', 'p'] ['1'] none demoInit 0 helpDesc
    rfl rfl rfl rfl⟩

/-- Claim C6: the scan never modifies a slot it does not mark written;
the default pass, run only on success, writes `default_value` into the
slot of a value-taking descriptor that was never written when the default
is present, keeps the caller-initialized contents when it is absent, and
leaves written slots and flag slots untouched; parsing `["prog"]` on the
demo table shows the output default applied and the defaultless input
slot left as the caller initialized it. -/
theorem claim_C6_defaults :
    (∀ (table : List CommandOption) (rest : List String) (i : Nat)
        (st : List SlotEntry) (j : Nat) (st' : List SlotEntry),
        parseLoop table rest i st = .ok (j, st') →
        ∀ k e, st'.get? k = some e → e.written = false → st.get? k = some e) ∧
    (∀ (table : List CommandOption) (st : List SlotEntry) (k : Nat)
        (d : CommandOption) (e : SlotEntry) (v : String),
        table.get? k = some d → st.get? k = some e → e.written = false →
        d.takes_argument = true → d.default_value = some v →
        (applyDefaults table st).get? k = some ⟨.str (some v), false⟩) ∧
    (∀ (table : List CommandOption) (st : List SlotEntry) (k : Nat)
        (d : CommandOption) (e : SlotEntry),
        table.get? k = some d → st.get? k = some e → e.written = false →
        d.takes_argument = true → d.default_value = none →
        (applyDefaults table st).get? k = some e) ∧
    (∀ (table : List CommandOption) (st : List SlotEntry) (k : Nat)
        (d : CommandOption) (e : SlotEntry),
        table.get? k = some d → st.get? k = some e →
        (e.written = true ∨ d.takes_argument = false) →
        (applyDefaults table st).get? k = some e) ∧
    parse_options ["prog"] demoTable demoInit =
      .ok (1, [⟨.flag false, false⟩, ⟨.flag false, false⟩, ⟨.str (some ("test.c")), false⟩,
        ⟨.str none, false⟩]) := by
  refine ⟨?_, ?_, ?_, ?_, rfl⟩
  · intro table rest i st j st' h
    exact parseLoop_untouched table rest i st j st' h
  · intro table st k d e v htab hst hw htakes hdef
    rw [applyDefaults_get?_eq htab hst, applyDefault1]
    simp [htakes, hw, hdef]
  · intro table st k d e htab hst hw htakes hdef
    rw [applyDefaults_get?_eq htab hst, applyDefault1]
    simp [htakes, hw, hdef]
  · intro table st k d e htab hst hcase
    rw [applyDefaults_get?_eq htab hst, applyDefault1]
    rcases hcase with hw | hflag
    · simp [hw]
    · simp [hflag]

/-- Witness for claim C6 at a concrete input: the untouched output slot
of the demo table receives the default `"test.c"` from the default
pass. -/
theorem claim_C6_defaults_witness :
    demoTable.get? 2 = some outputDesc ∧
    demoInit.get? 2 = some ⟨.str none, false⟩ ∧
    outputDesc.takes_argument = true ∧
    outputDesc.default_value = some ("test.c") ∧
    (applyDefaults demoTable demoInit).get? 2 = some ⟨.str (some ("test.c")), false⟩ :=
  ⟨rfl, rfl, rfl, rfl, claim_C6_defaults.2.1 demoTable demoInit 2 outputDesc
    ⟨.str none, false⟩ "test.c" rfl rfl rfl rfl rfl⟩

/-- Claim C7: on a non-empty argument vector the parser returns either a
positional index between 1 and the vector length (the C encoding maps
failures to negative return values, modelled here by the `Except` error
branch) or one of the three errors; a success carries the index, an error
carries the offending token or descriptor in its constructor, and nothing
else escapes. -/
theorem claim_C7_outcome :
    (∀ (args : List String) (table : List CommandOption) (st : List SlotEntry)
        (j : Nat) (st' : List SlotEntry), args ≠ [] →
        parse_options args table st = .ok (j, st') → 1 ≤ j ∧ j ≤ args.length) ∧
    (∀ (args : List String) (table : List CommandOption) (st : List SlotEntry),
        (∃ j st', parse_options args table st = .ok (j, st')) ∨
        (∃ e, parse_options args table st = .error e)) := by
  constructor
  · intro args table st j st' hne h
    rw [parse_options] at h
    cases hl : parseLoop table (args.drop 1) 1 st with
    | error e => rw [hl] at h; cases h
    | ok p =>
      obtain ⟨j0, st0⟩ := p
      rw [hl] at h
      cases h
      have hb := parseLoop_bound table (args.drop 1) 1 st _ _ hl
      have hlen : (args.drop 1).length = args.length - 1 := by simp
      have hpos : 1 ≤ args.length := List.length_pos.mpr hne
      omega
  · intro args table st
    cases h : parse_options args table st with
    | ok p => exact Or.inl ⟨p.1, p.2, rfl⟩
    | error e => exact Or.inr ⟨e, rfl⟩

/-- Witness for claim C7 at a concrete input: parsing `["prog", "-v"]`
with the demo table returns index 2, within the required bounds. -/
theorem claim_C7_outcome_witness :
    (["prog", "-v"] : List String) ≠ [] ∧
    (1 ≤ 2 ∧ 2 ≤ (["prog", "-v"] : List String).length) :=
  ⟨by simp, claim_C7_outcome.1 ["prog", "-v"] demoTable demoInit 2
    [⟨.flag false, false⟩, ⟨.flag true, true⟩, ⟨.str (some ("test.c")), false⟩,
      ⟨.str none, false⟩] (by simp) rfl⟩

/-- Claim C10: with the demo program's table and initial slots, every
successful parse leaves a non-NULL string in the output-file slot — the
supplied value when `-o`/`--output` was given and the default `"test.c"`
otherwise — so `main` prints its output-file line on every successful
run; concrete runs without and with `-o` illustrate the two cases. -/
theorem claim_C10_output_nonnull :
    (∀ (args : List String) (j : Nat) (st' : List SlotEntry),
        parse_options args demoTable demoInit = .ok (j, st') →
        (∃ v e, st'.get? 2 = some e ∧ e.val = .str (some v)) ∧
        demoPrintsOutputLine st' = true) ∧
    parse_options ["prog", "a"] demoTable demoInit =
      .ok (1, [⟨.flag false, false⟩, ⟨.flag false, false⟩, ⟨.str (some ("test.c")), false⟩,
        ⟨.str none, false⟩]) ∧
    parse_options ["prog", "-o", "x", "f"] demoTable demoInit =
      .ok (3, [⟨.flag false, false⟩, ⟨.flag false, false⟩, ⟨.str (some ("x")), true⟩,
        ⟨.str none, false⟩]) := by
  refine ⟨?_, rfl, rfl⟩
  intro args j st' h
  rw [parse_options] at h
  cases hl : parseLoop demoTable (args.drop 1) 1 demoInit with
  | error e => rw [hl] at h; cases h
  | ok p =>
    obtain ⟨j0, st0⟩ := p
    rw [hl] at h
    cases h
    have hlen : st0.length = demoInit.length := parseLoop_length _ _ _ _ _ _ hl
    have h2 : 2 < st0.length := by rw [hlen]; simp [demoInit]
    have htable : demoTable.get? 2 = some outputDesc := rfl
    cases hget : st0.get? 2 with
    | none =>
      rw [List.get?_eq_none] at hget
      omega
    | some e =>
      by_cases hw : e.written = true
      · have hv0 : ValWritten demoTable demoInit := by
          intro k d e0 hk hd hst hww
          have hmem := List.get?_mem hst
          simp only [demoInit, List.mem_cons, List.not_mem_nil, or_false] at hmem
          rcases hmem with h1 | h1 | h1 | h1 <;> subst h1 <;> simp at hww
        have hv := parseLoop_valWritten _ _ _ _ _ _ hl hv0
        obtain ⟨v, hval⟩ := hv 2 outputDesc e htable rfl hget hw
        have hkeep : (applyDefaults demoTable st0).get? 2 = some e := by
          rw [applyDefaults_get?_eq htable hget, applyDefault1]
          simp [hw]
        refine ⟨⟨v, e, hkeep, hval⟩, ?_⟩
        obtain ⟨val, w⟩ := e
        simp only at hval
        subst hval
        simp only [demoPrintsOutputLine, hkeep]
      · have hu := parseLoop_untouched _ _ _ _ _ _ hl
        have hw' : e.written = false := by simpa using hw
        have hinit := hu 2 e hget hw'
        have he2 : (⟨.str none, false⟩ : SlotEntry) = e := by
          injection (show some (⟨SlotVal.str none, false⟩ : SlotEntry) = some e from hinit)
        subst he2
        have hdef : (applyDefaults demoTable st0).get? 2 =
            some ⟨.str (some ("test.c")), false⟩ := by
          rw [applyDefaults_get?_eq htable hget]
          rfl
        refine ⟨⟨"test.c", ⟨.str (some ("test.c")), false⟩, hdef, rfl⟩, ?_⟩
        simp only [demoPrintsOutputLine, hdef]

/-- Witness for claim C10 at a concrete input: a successful run without
`-o` leaves the default `"test.c"` in the output slot and the demo prints
its output-file line. -/
theorem claim_C10_output_nonnull_witness :
    (∃ v e, ([⟨.flag false, false⟩, ⟨.flag false, false⟩,
        ⟨.str (some ("test.c")), false⟩, ⟨.str none, false⟩] : List SlotEntry).get? 2 =
          some e ∧ e.val = .str (some v)) ∧
    demoPrintsOutputLine [⟨.flag false, false⟩, ⟨.flag false, false⟩,
      ⟨.str (some ("test.c")), false⟩, ⟨.str none, false⟩] = true :=
  claim_C10_output_nonnull.1 ["prog", "a"] 1
    [⟨.flag false, false⟩, ⟨.flag false, false⟩, ⟨.str (some ("test.c")), false⟩,
      ⟨.str none, false⟩] rfl
